import Mathlib

/-!
Shallow embedding of `hl.py`, a streaming text highlighter.

Text is represented as `List Char` (Python strings are sequences of
characters; the program builds its output by extending a character list).
Offsets are `Int` because Python's `re` match objects report the span of a
capture group that did not participate in a match as `(-1, -1)`, and those
values flow into the program's slice arithmetic, where Python interprets
negative indices relative to the end of the string.  `pySlice` below
reproduces Python's slice semantics exactly.

The regular-expression engine itself (Python's `re` module) is not part of
the repository; a compiled pattern is modelled as a function from a text to
the list of matches that `finditer` yields, and the concrete patterns used
by the specification's examples (plain literals, a literal with one capture
group, and the optional-group pattern `(x)?a`) are given as explicit
leftmost, non-overlapping matchers.
-/

namespace Hl

/-- A color is a pair of optional 256-color palette indices
`(foreground, background)`, as passed to `make_color`. -/
abbrev Color := Option Nat × Option Nat

/-- A match as reported by Python's `re` finditer: the whole-match span
(`match.start()`, `match.end()`) and the spans of capture groups `1..N`
(`match.start(g)`, `match.end(g)`); a group that did not participate in the
match has span `(-1, -1)`. -/
structure Match where
  span : Int × Int
  groups : List (Int × Int)
  deriving DecidableEq, Repr

/-- A compiled pattern, modelled by its `finditer` behaviour. -/
abbrev Pat := List Char → List Match

/-- A match event: a text offset paired with the escape code inserted
there.  Mirrors the `(index, color)` tuples of `__get_match_indexes`. -/
abbrev Event := Int × List Char

/-- `make_color` from `hl.py` (the memoization wrapper is semantically
transparent): builds the ANSI activation sequence for a color pair by
extending a character list with `"\x1b[38;5;" + str(fg) + "m"` when a
foreground is given and `"\x1b[48;5;" + str(bg) + "m"` when a background
is given, then joining. -/
def make_color (fg_color bg_color : Option Nat) : List Char :=
  (match fg_color with
   | some c => '\x1b' :: '[' :: '3' :: '8' :: ';' :: '5' :: ';' :: ((toString c).data ++ ['m'])
   | none => []) ++
  (match bg_color with
   | some c => '\x1b' :: '[' :: '4' :: '8' :: ';' :: '5' :: ';' :: ((toString c).data ++ ['m'])
   | none => [])

/-- `make_endc` from `hl.py`: the fixed ANSI reset sequence `"\x1b[0;0;0m"`. -/
def make_endc : List Char := ['\x1b', '[', '0', ';', '0', ';', '0', 'm']

/-- Lexicographic comparison of character lists by code point: Python's
string `<=`, which `sorted` uses on the second component of the
`(index, code)` tuples. -/
def strLe : List Char → List Char → Bool
  | [], _ => true
  | _ :: _, [] => false
  | x :: xs, y :: ys => if x < y then true else if y < x then false else strLe xs ys

/-- Python's ascending tuple order on `(index, code)` events: compare the
integer offsets first, then the code strings. -/
def evLe (a b : Event) : Bool :=
  decide (a.1 < b.1) || (decide (a.1 = b.1) && strLe a.2 b.2)

/-- `evLe` as a relation, for use with `List.insertionSort`. -/
def evr (a b : Event) : Prop := evLe a b = true

instance : DecidableRel evr := fun a b => inferInstanceAs (Decidable (evLe a b = true))

/-- The events one match contributes in `__get_match_indexes`: when the
pattern has capture groups, one activation/reset pair per group `1..N`
(group 0, the whole match, is skipped); otherwise one pair for the whole
match span. -/
def matchEvents (color : Color) (m : Match) : List Event :=
  if m.groups.length > 0 then
    m.groups.flatMap (fun g => [(g.1, make_color color.1 color.2), (g.2, make_endc)])
  else
    [(m.span.1, make_color color.1 color.2), (m.span.2, make_endc)]

/-- All events accumulated by the two nested loops of
`__get_match_indexes`, before set deduplication and sorting. -/
def rawEvents (patterns : List (Pat × Color)) (text : List Char) : List Event :=
  patterns.flatMap (fun pc => (pc.1 text).flatMap (matchEvents pc.2))

/-- Python's `sorted(list(s))` for a set `s` of events: the unique
ascending enumeration of the distinct events.  Realised as an insertion
sort of the duplicate-free accumulation list; since `evr` is a total,
transitive, antisymmetric order this equals Python's result whatever
iteration order the hash set used. -/
def sortedSet (l : List Event) : List Event :=
  List.insertionSort evr l.dedup

/-- `Highlighter.__get_match_indexes`: accumulate the events of every
match of every registered pattern into a set and return them sorted. -/
def get_match_indexes (patterns : List (Pat × Color)) (text : List Char) : List Event :=
  sortedSet (rawEvents patterns text)

/-- Normalisation of a Python slice endpoint `i` for a string of length
`n`: negative indices count from the end and clamp at `0`; non-negative
ones clamp at `n`. -/
def pyIndex (n : Nat) (i : Int) : Nat :=
  if i < 0 then (i + n).toNat else min i.toNat n

/-- Python's `text[a:b]` on a character list. -/
def pySlice (t : List Char) (a b : Int) : List Char :=
  (t.take (pyIndex t.length b)).drop (pyIndex t.length a)

/-- The assembly loop of `Highlighter.highlight`: for each `(index, code)`
event append `text[last_index:index]` and then the code, advancing
`last_index`; after the loop append `text[last_index:]`. -/
def highlightAux (text : List Char) (last : Int) : List Event → List Char
  | [] => pySlice text last text.length
  | (i, c) :: rest => pySlice text last i ++ c ++ highlightAux text i rest

/-- The error raised when a pattern string fails to compile
(`re.error`, which the specification calls `PatternError`). -/
structure PatternError where
  pattern : String
  msg : String
  deriving DecidableEq, Repr

/-- The `Highlighter` object: a default color fixed at construction and
the ordered list of `(compiled pattern, color)` registrations. -/
structure Highlighter where
  default_color : Color
  patterns : List (Pat × Color)

/-- `Highlighter.add_pattern`: compile `pattern` if it is a raw string
(an already-compiled pattern — one with a `finditer` — is used as is),
fall back to the current default color when no color is supplied, and
append the `(pattern, color)` pair to the registration list.  Compilation
by Python's `re.compile` is abstracted as the `compile` argument; a
compilation failure propagates before the list is touched. -/
def Highlighter.add_pattern (compile : String → Except PatternError Pat)
    (h : Highlighter) (pattern : String ⊕ Pat) (color : Option Color) :
    Except PatternError Highlighter :=
  match pattern with
  | Sum.inr p =>
    Except.ok ⟨h.default_color, h.patterns ++ [(p, color.getD h.default_color)]⟩
  | Sum.inl s =>
    match compile s with
    | Except.error e => Except.error e
    | Except.ok p =>
      Except.ok ⟨h.default_color, h.patterns ++ [(p, color.getD h.default_color)]⟩

/-- `Highlighter.highlight`: collect the sorted match events and run the
assembly loop starting from `last_index = 0`. -/
def Highlighter.highlight (h : Highlighter) (text : List Char) : List Char :=
  highlightAux text 0 (get_match_indexes h.patterns text)

/-- Rebinding `self.default_color` on an existing highlighter. -/
def Highlighter.set_default_color (h : Highlighter) (c : Color) : Highlighter :=
  ⟨c, h.patterns⟩

/-- Start offsets of the leftmost, non-overlapping occurrences of the
nonempty literal `p` in the remaining text, where `i` is the absolute
offset of the head of the remaining text: the iteration order of Python's
`finditer` for a plain literal pattern.  The `fuel` argument (initially
the text length) only forces structural recursion; each step consumes at
least one character, so it never runs out for a nonempty `p`. -/
def findLitAux (p : List Char) : Nat → List Char → Nat → List Nat
  | 0, _, _ => []
  | _ + 1, [], _ => []
  | fuel + 1, c :: rest, i =>
    if p.isPrefixOf (c :: rest) then
      i :: findLitAux p fuel ((c :: rest).drop p.length) (i + p.length)
    else
      findLitAux p fuel rest (i + 1)

/-- Model of Python `re.finditer` for a nonempty literal pattern with no
capture groups (such as `"bc"`): each occurrence is a whole-match span. -/
def litPat (p : List Char) : Pat := fun t =>
  (findLitAux p t.length t 0).map (fun i => ⟨((i : Int), (i : Int) + p.length), []⟩)

/-- Model of Python `re.finditer` for a literal pattern with one literal
capture group, `pre(grp)post` (such as `"a(b)c"`): each occurrence of
`pre ++ grp ++ post` is a match whose single capture group spans `grp`. -/
def litGroupPat (pre grp post : List Char) : Pat := fun t =>
  (findLitAux (pre ++ grp ++ post) t.length t 0).map (fun i =>
    ⟨((i : Int), (i : Int) + (pre ++ grp ++ post).length),
     [((i : Int) + pre.length, (i : Int) + pre.length + grp.length)]⟩)

/-- Iteration of Python `re.finditer` for the pattern `(x)?a`: an
occurrence of `"xa"` matches with group 1 spanning the `'x'`; a bare
`'a'` matches with group 1 not participating, reported as span
`(-1, -1)`. -/
def findOptXA : List Char → Int → List Match
  | [], _ => []
  | 'x' :: 'a' :: rest, i => ⟨(i, i + 2), [(i, i + 1)]⟩ :: findOptXA rest (i + 2)
  | 'a' :: rest, i => ⟨(i, i + 1), [(-1, -1)]⟩ :: findOptXA rest (i + 1)
  | _ :: rest, i => findOptXA rest (i + 1)

/-- Model of Python `re.finditer` for the pattern `(x)?a`. -/
def optXA : Pat := fun t => findOptXA t 0

/-- Modelled from the spec: Python's `re.compile` is not part of the
repository.  Per the spec, the pattern string `"["` (an unbalanced
bracket) fails to compile with a pattern error, and the literal pattern
`"bc"` compiles to a matcher for that literal.  Other strings are mapped
to a matcher with no matches; only the two behaviours above are relied
upon. -/
def reCompile (s : String) : Except PatternError Pat :=
  if s = "[" then Except.error ⟨"[", "unexpected end of regular expression"⟩
  else if s = "bc" then Except.ok (litPat ['b', 'c'])
  else Except.ok (fun _ => [])

/-- Scanner for `stripAnsi`: when the flag is set we are inside an ANSI
escape sequence and drop characters up to and including its terminating
`'m'`; otherwise `ESC [` opens a sequence and every other character is
kept. -/
def stripAnsiAux : Bool → List Char → List Char
  | _, [] => []
  | true, c :: rest => if c = 'm' then stripAnsiAux false rest else stripAnsiAux true rest
  | false, '\x1b' :: '[' :: rest => stripAnsiAux true rest
  | false, c :: rest => c :: stripAnsiAux false rest

/-- Removes every ANSI escape sequence (`ESC [` up to and including the
terminating `'m'`) from a character list, leaving the other characters in
order: the "stripping" of the spec's round-trip property. -/
def stripAnsi (t : List Char) : List Char := stripAnsiAux false t

/-- A span reported by the regex engine for a text of length `n`: either
an in-range span with `0 ≤ start ≤ end ≤ n`, or the `(-1, -1)` sentinel
of a capture group that did not participate in the match. -/
def SpanOK (n : Nat) (s : Int × Int) : Prop :=
  (0 ≤ s.1 ∧ s.1 ≤ s.2 ∧ s.2 ≤ (n : Int)) ∨ (s.1 = -1 ∧ s.2 = -1)

/-- All spans of a match are well-formed for a text of length `n`. -/
def MatchOK (n : Nat) (m : Match) : Prop :=
  SpanOK n m.span ∧ ∀ g ∈ m.groups, SpanOK n g

/-- A highlighter registering `(x)?a` with color `(1, None)` and the
literal `b` with color `(2, None)`. -/
def hlOptXA_b : Highlighter :=
  ⟨(some 0, some 10), [(optXA, (some 1, none)), (litPat ['b'], (some 2, none))]⟩

/-- A highlighter registering only `(x)?a` with color `(1, None)`. -/
def hlOptXA : Highlighter := ⟨(some 0, some 10), [(optXA, (some 1, none))]⟩

/-- A highlighter registering `a(b)c` with color `(3, None)`. -/
def hlGroupABC : Highlighter :=
  ⟨(some 0, some 10), [(litGroupPat ['a'] ['b'] ['c'], (some 3, none))]⟩

/-- Registrations of the literals `ab` and `b`, whose matches on `"ab"`
both end at offset 2. -/
def patsSharedEnd : List (Pat × Color) :=
  [(litPat ['a', 'b'], (some 1, none)), (litPat ['b'], (some 2, none))]

/-- Registration of the literal `bc` with color `(1, None)`, for span
well-formedness arguments. -/
def patsBC : List (Pat × Color) := [(litPat ['b', 'c'], (some 1, none))]

theorem strLe_total (a b : List Char) : strLe a b = true ∨ strLe b a = true := by
  induction a generalizing b with
  | nil => exact Or.inl rfl
  | cons x xs ih =>
    cases b with
    | nil => exact Or.inr rfl
    | cons y ys =>
      rcases lt_trichotomy x y with h | h | h
      · exact Or.inl (by simp [strLe, h])
      · subst h
        rcases ih ys with hs | hs
        · exact Or.inl (by simp [strLe, lt_irrefl, hs])
        · exact Or.inr (by simp [strLe, lt_irrefl, hs])
      · exact Or.inr (by simp [strLe, h])

theorem strLe_trans {a b c : List Char} (h1 : strLe a b = true) (h2 : strLe b c = true) :
    strLe a c = true := by
  induction a generalizing b c with
  | nil => rfl
  | cons x xs ih =>
    cases b with
    | nil => simp [strLe] at h1
    | cons y ys =>
      cases c with
      | nil => simp [strLe] at h2
      | cons z zs =>
        rcases lt_trichotomy x y with hxy | hxy | hxy
        · rcases lt_trichotomy y z with hyz | hyz | hyz
          · simp [strLe, lt_trans hxy hyz]
          · subst hyz; simp [strLe, hxy]
          · simp [strLe, asymm hyz, hyz] at h2
        · subst hxy
          simp only [strLe, lt_irrefl, if_false] at h1
          rcases lt_trichotomy x z with hxz | hxz | hxz
          · simp [strLe, hxz]
          · subst hxz
            simp only [strLe, lt_irrefl, if_false] at h2 ⊢
            exact ih h1 h2
          · simp [strLe, asymm hxz, hxz] at h2
        · simp [strLe, asymm hxy, hxy] at h1

theorem strLe_antisymm {a b : List Char} (h1 : strLe a b = true) (h2 : strLe b a = true) :
    a = b := by
  induction a generalizing b with
  | nil =>
    cases b with
    | nil => rfl
    | cons y ys => simp [strLe] at h2
  | cons x xs ih =>
    cases b with
    | nil => simp [strLe] at h1
    | cons y ys =>
      rcases lt_trichotomy x y with h | h | h
      · simp [strLe, asymm h, h] at h2
      · subst h
        simp only [strLe, lt_irrefl, if_false] at h1 h2
        exact congrArg (x :: ·) (ih h1 h2)
      · simp [strLe, asymm h, h] at h1

theorem evr_iff (a b : Event) :
    evr a b ↔ a.1 < b.1 ∨ (a.1 = b.1 ∧ strLe a.2 b.2 = true) := by
  simp [evr, evLe, Bool.or_eq_true, Bool.and_eq_true, decide_eq_true_eq]

instance : IsTotal Event evr := by
  constructor
  intro a b
  rcases lt_trichotomy a.1 b.1 with h | h | h
  · exact Or.inl ((evr_iff a b).mpr (Or.inl h))
  · rcases strLe_total a.2 b.2 with hs | hs
    · exact Or.inl ((evr_iff a b).mpr (Or.inr ⟨h, hs⟩))
    · exact Or.inr ((evr_iff b a).mpr (Or.inr ⟨h.symm, hs⟩))
  · exact Or.inr ((evr_iff b a).mpr (Or.inl h))

instance : IsTrans Event evr := by
  constructor
  intro a b c hab hbc
  rcases (evr_iff a b).mp hab with h1 | ⟨h1, hs1⟩ <;>
    rcases (evr_iff b c).mp hbc with h2 | ⟨h2, hs2⟩
  · exact (evr_iff a c).mpr (Or.inl (lt_trans h1 h2))
  · exact (evr_iff a c).mpr (Or.inl (h2 ▸ h1))
  · exact (evr_iff a c).mpr (Or.inl (h1 ▸ h2))
  · exact (evr_iff a c).mpr (Or.inr ⟨h1.trans h2, strLe_trans hs1 hs2⟩)

instance : IsAntisymm Event evr := by
  constructor
  intro a b hab hba
  rcases (evr_iff a b).mp hab with h1 | ⟨h1, hs1⟩ <;>
    rcases (evr_iff b a).mp hba with h2 | ⟨h2, hs2⟩
  · exact absurd h2 (asymm h1)
  · exact absurd h1 (h2 ▸ lt_irrefl a.1)
  · exact absurd h2 (h1 ▸ lt_irrefl a.1)
  · exact Prod.ext h1 (strLe_antisymm hs1 hs2)

/-- The sorted event list is a permutation of the distinct raw events. -/
theorem get_match_indexes_perm (patterns : List (Pat × Color)) (text : List Char) :
    List.Perm (get_match_indexes patterns text) ((rawEvents patterns text).dedup) :=
  List.perm_insertionSort evr _

/-- Membership in the sorted event list is membership among the raw
events of the two accumulation loops. -/
theorem mem_get_match_indexes {patterns : List (Pat × Color)} {text : List Char}
    {e : Event} : e ∈ get_match_indexes patterns text ↔ e ∈ rawEvents patterns text :=
  ((get_match_indexes_perm patterns text).mem_iff).trans (List.mem_dedup)

/-- The sorted event list has no duplicates: the set collapses equal
`(offset, code)` pairs. -/
theorem nodup_get_match_indexes (patterns : List (Pat × Color)) (text : List Char) :
    (get_match_indexes patterns text).Nodup :=
  ((get_match_indexes_perm patterns text).nodup_iff).mpr (List.nodup_dedup _)

/-- The event list is sorted by the Python tuple order. -/
theorem sorted_get_match_indexes (patterns : List (Pat × Color)) (text : List Char) :
    (get_match_indexes patterns text).Sorted evr :=
  List.sorted_insertionSort evr _

/-- `sortedSet` is invariant under permutation of the accumulated events:
whatever iteration order Python's hash set presents its elements in, the
final sorted list is the same. -/
theorem sortedSet_perm_invariant {l₁ l₂ : List Event} (h : List.Perm l₁ l₂) :
    sortedSet l₁ = sortedSet l₂ :=
  List.eq_of_perm_of_sorted
    ((List.perm_insertionSort evr _).trans ((h.dedup).trans (List.perm_insertionSort evr _).symm))
    (List.sorted_insertionSort evr _) (List.sorted_insertionSort evr _)

/-- `text[0:len(text)]` is `text`. -/
theorem pySlice_zero_length (t : List Char) : pySlice t 0 t.length = t := by
  simp only [pySlice, pyIndex]
  rw [if_neg (by omega : ¬ ((t.length : Int) < 0)), if_neg (by omega : ¬ ((0 : Int) < 0))]
  simp

/-- Sorting by the tuple order makes offsets non-decreasing. -/
theorem evr_fst_le {a b : Event} (h : evr a b) : a.1 ≤ b.1 := by
  rcases (evr_iff a b).mp h with h | ⟨h, _⟩
  · exact le_of_lt h
  · exact le_of_eq h

/-- Every event of a well-formed match carries either the `-1` sentinel
offset of a non-participating group or an offset within the text. -/
theorem matchEvents_offset {n : Nat} {c : Color} {m : Match} (hm : MatchOK n m)
    {e : Event} (he : e ∈ matchEvents c m) :
    e.1 = -1 ∨ (0 ≤ e.1 ∧ e.1 ≤ (n : Int)) := by
  unfold matchEvents at he
  split at he
  · rw [List.mem_flatMap] at he
    obtain ⟨g, hg, he⟩ := he
    have hs := hm.2 g hg
    unfold SpanOK at hs
    simp only [List.mem_cons, List.not_mem_nil, or_false] at he
    rcases he with rfl | rfl <;> simp only <;> omega
  · have hs := hm.1
    unfold SpanOK at hs
    simp only [List.mem_cons, List.not_mem_nil, or_false] at he
    rcases he with rfl | rfl <;> simp only <;> omega

/-- An event contributed by any match of any registered pattern appears
in the sorted event list. -/
theorem mem_get_match_indexes_of {patterns : List (Pat × Color)} {text : List Char}
    {p : Pat} {c : Color} {m : Match} {e : Event}
    (hp : (p, c) ∈ patterns) (hm : m ∈ p text) (he : e ∈ matchEvents c m) :
    e ∈ get_match_indexes patterns text := by
  refine mem_get_match_indexes.mpr ?_
  unfold rawEvents
  rw [List.mem_flatMap]
  exact ⟨(p, c), hp, List.mem_flatMap.mpr ⟨m, hm, he⟩⟩

/-- Claim C1: stripping the inserted ANSI codes from `highlight(text)` is
claimed to reconstruct `text` exactly, including when a capture group does
not participate in a match.  Evaluating the code on the registrations
`(x)?a` (color `(1, None)`) and `b` (color `(2, None)`) and the text
`"abc"` refutes this: the group sentinel offset `-1` flows into the slice
arithmetic, `text[0:-1]` emits `"ab"`, the later slice `text[1:2]` emits
`"b"` again, and the stripped output is `"abbc"`, not `"abc"`. -/
theorem roundtrip_fails_on_nonparticipating_group :
    stripAnsi (hlOptXA_b.highlight "abc".data) = "abbc".data
    ∧ "abbc".data ≠ "abc".data :=
  ⟨rfl, by decide⟩

/-- Claim C2 (counterexample): the insertion offsets of a completed
highlighting pass are claimed to be a subset of `{0 … length(text)}`, but
the pattern `(x)?a` on `"a"` inserts the reset code at offset `-1`. -/
theorem event_offset_neg_one :
    ((-1 : Int), make_endc) ∈ get_match_indexes [(optXA, (some 1, none))] "a".data
    ∧ ¬ (0 ≤ (-1 : Int)) :=
  ⟨by decide, by decide⟩

/-- Claim C2 (amended): for patterns whose matches report in-range spans
or the `(-1, -1)` sentinel of a non-participating group, every insertion
offset lies in `{-1} ∪ {0 … length(text)}`, the sorted event sequence has
non-decreasing offsets (hence its distinct insertion positions are
strictly increasing), and no event is duplicated. -/
theorem event_offsets_range_and_order (pats : List (Pat × Color)) (text : List Char)
    (hok : ∀ p c, (p, c) ∈ pats → ∀ m ∈ p text, MatchOK text.length m) :
    (∀ e ∈ get_match_indexes pats text, e.1 = -1 ∨ (0 ≤ e.1 ∧ e.1 ≤ (text.length : Int)))
    ∧ (get_match_indexes pats text).Pairwise (fun a b : Event => a.1 ≤ b.1)
    ∧ (get_match_indexes pats text).Nodup := by
  refine ⟨?_, ?_, nodup_get_match_indexes pats text⟩
  · intro e he
    have hraw := mem_get_match_indexes.mp he
    unfold rawEvents at hraw
    rw [List.mem_flatMap] at hraw
    obtain ⟨pc, hpc, hraw⟩ := hraw
    rw [List.mem_flatMap] at hraw
    obtain ⟨m, hmem, he'⟩ := hraw
    exact matchEvents_offset (hok pc.1 pc.2 hpc m hmem) he'
  · exact (sorted_get_match_indexes pats text).imp evr_fst_le

/-- Witness for the amended C2 theorem: the literal `bc` on `"abcd"`
satisfies the span condition, and the conclusions hold there. -/
theorem event_offsets_range_and_order_witness :
    (∀ p c, (p, c) ∈ patsBC → ∀ m ∈ p "abcd".data, MatchOK "abcd".data.length m)
    ∧ ((∀ e ∈ get_match_indexes patsBC "abcd".data,
          e.1 = -1 ∨ (0 ≤ e.1 ∧ e.1 ≤ ("abcd".data.length : Int)))
       ∧ (get_match_indexes patsBC "abcd".data).Pairwise (fun a b : Event => a.1 ≤ b.1)
       ∧ (get_match_indexes patsBC "abcd".data).Nodup) := by
  have hok : ∀ p c, (p, c) ∈ patsBC → ∀ m ∈ p "abcd".data, MatchOK "abcd".data.length m := by
    intro p c hpc m hm
    rw [patsBC, List.mem_singleton] at hpc
    injection hpc with h1 h2
    subst h1
    have : litPat ['b', 'c'] "abcd".data = [⟨(1, 3), []⟩] := rfl
    rw [this, List.mem_singleton] at hm
    subst hm
    exact ⟨Or.inl (by constructor <;> [decide; constructor <;> decide]), by simp⟩
  exact ⟨hok, event_offsets_range_and_order patsBC "abcd".data hok⟩

/-- Claim C3: for a match of a pattern with capture groups, the emitted
events are exactly one activation/reset pair per group `1..N` — the
whole-match span contributes nothing — and concretely `a(b)c` on `"abc"`
colors only `"b"`, leaving `"a"` before the activation code and `"c"`
after the reset code. -/
theorem capture_groups_only_colored :
    (∀ (c : Color) (m : Match), m.groups.length > 0 →
       matchEvents c m =
         m.groups.flatMap (fun g => [(g.1, make_color c.1 c.2), (g.2, make_endc)]))
    ∧ hlGroupABC.highlight "abc".data =
        "a".data ++ make_color (some 3) none ++ "b".data ++ make_endc ++ "c".data := by
  constructor
  · intro c m h
    unfold matchEvents
    rw [if_pos h]
  · rfl

/-- Witness for C3: a match with one capture group, evaluated. -/
theorem capture_groups_only_colored_witness :
    (Match.mk (0, 3) [(1, 2)]).groups.length > 0
    ∧ matchEvents (some 3, none) (Match.mk (0, 3) [(1, 2)]) =
        [((1 : Int), make_color (some 3) none), ((2 : Int), make_endc)] :=
  ⟨by decide, (capture_groups_only_colored.1 (some 3, none) (Match.mk (0, 3) [(1, 2)])
      (by decide)).trans rfl⟩

/-- Claim C4: when a pattern string fails to compile, `add_pattern`
propagates the compilation error immediately — it never returns a
highlighter, so the registration list is left unchanged and the failure
cannot be deferred to `highlight`. -/
theorem add_pattern_error_atomic (compile : String → Except PatternError Pat)
    (h : Highlighter) (s : String) (color : Option Color) (e : PatternError)
    (hc : compile s = Except.error e) :
    h.add_pattern compile (Sum.inl s) color = Except.error e
    ∧ ∀ h' : Highlighter, h.add_pattern compile (Sum.inl s) color ≠ Except.ok h' := by
  have hres : h.add_pattern compile (Sum.inl s) color = Except.error e := by
    simp only [Highlighter.add_pattern, hc]
  exact ⟨hres, fun h' hok => by rw [hres] at hok; exact Except.noConfusion hok⟩

/-- Witness for C4: the unbalanced bracket `"["` fails to compile and the
registration fails with that error. -/
theorem add_pattern_error_atomic_witness :
    reCompile "[" = Except.error ⟨"[", "unexpected end of regular expression"⟩
    ∧ (Highlighter.mk (some 0, some 10) []).add_pattern reCompile (Sum.inl "[") none
        = Except.error ⟨"[", "unexpected end of regular expression"⟩ :=
  ⟨rfl, (add_pattern_error_atomic reCompile ⟨(some 0, some 10), []⟩ "[" none
      ⟨"[", "unexpected end of regular expression"⟩ rfl).1⟩

/-- Claim C5: registering the single pattern `"bc"` with color
`(1, None)` and highlighting `"abcd"` yields exactly
`"a" + make_color(1, None) + "bc" + make_endc() + "d"`. -/
theorem single_match_output :
    (Highlighter.add_pattern reCompile ⟨(some 0, some 10), []⟩ (Sum.inl "bc")
        (some (some 1, none))).map (fun h => h.highlight "abcd".data)
      = Except.ok ("a".data ++ make_color (some 1) none ++ "bc".data ++ make_endc ++ "d".data) :=
  rfl

/-- Claim C6: highlighting with zero registered patterns returns the text
unchanged, for every text and every default color. -/
theorem highlight_no_patterns_identity (d : Color) (text : List Char) :
    (Highlighter.mk d []).highlight text = text :=
  pySlice_zero_length text

/-- Claim C7: events are collected in a set keyed by the whole
`(offset, code)` pair: the event list never contains a duplicate, its
members are exactly the events generated by the matches, and concretely
the matches of `ab` and `b` on `"ab"` both end at offset 2 yet the reset
code is present exactly once there. -/
theorem events_deduplicated :
    (∀ (pats : List (Pat × Color)) (text : List Char),
       (get_match_indexes pats text).Nodup
       ∧ ∀ e : Event, e ∈ get_match_indexes pats text ↔ e ∈ rawEvents pats text)
    ∧ (get_match_indexes patsSharedEnd "ab".data).count ((2 : Int), make_endc) = 1 :=
  ⟨fun pats text => ⟨nodup_get_match_indexes pats text, fun _ => mem_get_match_indexes⟩,
   by decide⟩

/-- Claim C8: registering a pattern without an explicit color binds the
highlighter's current default color into the registration itself; later
rebinding the default color leaves the stored registration — and hence
the activation code emitted for its matches — unchanged. -/
theorem default_color_bound_at_registration
    (compile : String → Except PatternError Pat) (d d' : Color)
    (pats : List (Pat × Color)) (p : Pat) (text : List Char) (m : Match)
    (hm : m ∈ p text) (hg : m.groups = []) :
    Highlighter.add_pattern compile ⟨d, pats⟩ (Sum.inr p) none
      = Except.ok ⟨d, pats ++ [(p, d)]⟩
    ∧ ((Highlighter.mk d (pats ++ [(p, d)])).set_default_color d').patterns
      = pats ++ [(p, d)]
    ∧ (m.span.1, make_color d.1 d.2) ∈
        get_match_indexes ((Highlighter.mk d (pats ++ [(p, d)])).set_default_color d').patterns
          text := by
  refine ⟨rfl, rfl, ?_⟩
  have hp : (p, d) ∈ pats ++ [(p, d)] :=
    List.mem_append_right pats (List.mem_singleton_self (p, d))
  refine mem_get_match_indexes_of hp hm ?_
  unfold matchEvents
  rw [hg]
  simp

/-- Witness for C8: the literal `bc` registered on a highlighter with
default color `(5, None)`, matched in `"abcd"`, after the default is
rebound to `(7, 8)`. -/
theorem default_color_bound_at_registration_witness :
    (Match.mk (1, 3) []) ∈ litPat ['b', 'c'] "abcd".data
    ∧ (Match.mk (1, 3) []).groups = []
    ∧ ((1 : Int), make_color (some 5) none) ∈
        get_match_indexes ((Highlighter.mk (some 5, none)
          ([] ++ [(litPat ['b', 'c'], (some 5, none))])).set_default_color
            (some 7, some 8)).patterns "abcd".data :=
  ⟨by decide, rfl,
   (default_color_bound_at_registration reCompile (some 5, none) (some 7, some 8) []
      (litPat ['b', 'c']) "abcd".data (Match.mk (1, 3) []) (by decide) rfl).2.2⟩

/-- Claim C9: the event order is fully deterministic: at equal offsets
the reset code `"\x1b[0;0;0m"` sorts strictly before every activation
code (which starts `"\x1b[38;5;"` or `"\x1b[48;5;"` whenever a channel is
present), the event list is sorted by the full `(offset, code)` tuple
order, and the sorted result is independent of the iteration order of the
deduplicating set — so equal registrations and equal text give equal
output. -/
theorem deterministic_event_order :
    (∀ (i : Int) (fg bg : Option Nat), fg.isSome = true ∨ bg.isSome = true →
       evr (i, make_endc) (i, make_color fg bg)
       ∧ ¬ evr (i, make_color fg bg) (i, make_endc))
    ∧ (∀ (pats : List (Pat × Color)) (text : List Char),
        (get_match_indexes pats text).Sorted evr)
    ∧ ∀ l₁ l₂ : List Event, List.Perm l₁ l₂ → sortedSet l₁ = sortedSet l₂ := by
  refine ⟨?_, sorted_get_match_indexes, fun _ _ h => sortedSet_perm_invariant h⟩
  intro i fg bg hsome
  have hlt : strLe make_endc (make_color fg bg) = true
      ∧ strLe (make_color fg bg) make_endc = false := by
    rcases fg with _ | c <;> rcases bg with _ | c2
    · simp at hsome
    · exact ⟨by simp [make_color, make_endc, strLe], by simp [make_color, make_endc, strLe]⟩
    · exact ⟨by simp [make_color, make_endc, strLe], by simp [make_color, make_endc, strLe]⟩
    · exact ⟨by simp [make_color, make_endc, strLe], by simp [make_color, make_endc, strLe]⟩
  constructor
  · exact (evr_iff _ _).mpr (Or.inr ⟨rfl, hlt.1⟩)
  · intro hcon
    rcases (evr_iff _ _).mp hcon with h | ⟨_, hs⟩
    · exact absurd h (lt_irrefl i)
    · rw [hlt.2] at hs
      exact Bool.noConfusion hs

/-- Witness for C9: instantiated at offset 0 with the activation code for
color `(1, None)`, and at a concrete transposition of two events. -/
theorem deterministic_event_order_witness :
    ((some 1 : Option Nat).isSome = true ∨ (none : Option Nat).isSome = true)
    ∧ evr ((0 : Int), make_endc) ((0 : Int), make_color (some 1) none)
    ∧ ¬ evr ((0 : Int), make_color (some 1) none) ((0 : Int), make_endc)
    ∧ List.Perm [((1 : Int), make_endc), ((0 : Int), make_endc)]
        [((0 : Int), make_endc), ((1 : Int), make_endc)]
    ∧ sortedSet [((1 : Int), make_endc), ((0 : Int), make_endc)]
        = sortedSet [((0 : Int), make_endc), ((1 : Int), make_endc)] :=
  ⟨Or.inl rfl,
   (deterministic_event_order.1 0 (some 1) none (Or.inl rfl)).1,
   (deterministic_event_order.1 0 (some 1) none (Or.inl rfl)).2,
   by decide,
   deterministic_event_order.2.2 _ _ (by decide)⟩

/-- Claim C10: a capture group that does not participate in a match still
contributes its activation and reset events, at the engine's sentinel
offset `-1`; the sorted event list has non-decreasing offsets, so the
`-1` events precede every in-range event; and concretely `(x)?a` on
`"abc"` puts both `-1` events first, whose slice bounds make the assembly
emit `text[0:-1] = "ab"` before any code and `text[-1:] = "c"` after. -/
theorem nonparticipating_group_events :
    (∀ (pats : List (Pat × Color)) (text : List Char) (p : Pat) (c : Color)
       (m : Match) (g : Int × Int),
       (p, c) ∈ pats → m ∈ p text → m.groups.length > 0 → g ∈ m.groups →
       (g.1, make_color c.1 c.2) ∈ get_match_indexes pats text
       ∧ (g.2, make_endc) ∈ get_match_indexes pats text)
    ∧ (∀ (pats : List (Pat × Color)) (text : List Char),
        (get_match_indexes pats text).Pairwise (fun a b : Event => a.1 ≤ b.1))
    ∧ get_match_indexes hlOptXA.patterns "abc".data
        = [(-1, make_endc), (-1, make_color (some 1) none)]
    ∧ hlOptXA.highlight "abc".data
        = pySlice "abc".data 0 (-1) ++ make_endc
          ++ pySlice "abc".data (-1) (-1) ++ make_color (some 1) none
          ++ pySlice "abc".data (-1) "abc".data.length
    ∧ hlOptXA.highlight "abc".data
        = "ab".data ++ make_endc ++ make_color (some 1) none ++ "c".data := by
  refine ⟨?_, fun pats text => (sorted_get_match_indexes pats text).imp evr_fst_le,
    by decide, rfl, rfl⟩
  intro pats text p c m g hp hm hgt hg
  constructor
  · refine mem_get_match_indexes_of hp hm ?_
    unfold matchEvents
    rw [if_pos hgt, List.mem_flatMap]
    exact ⟨g, hg, by simp⟩
  · refine mem_get_match_indexes_of hp hm ?_
    unfold matchEvents
    rw [if_pos hgt, List.mem_flatMap]
    exact ⟨g, hg, by simp⟩

/-- Witness for C10: the non-participating group of `(x)?a` matched in
`"abc"`, with its `(-1, -1)` span, contributes both events. -/
theorem nonparticipating_group_events_witness :
    (optXA, ((some 1, none) : Color)) ∈ hlOptXA.patterns
    ∧ (Match.mk (0, 1) [(-1, -1)]) ∈ optXA "abc".data
    ∧ (Match.mk (0, 1) [(-1, -1)]).groups.length > 0
    ∧ ((-1, -1) : Int × Int) ∈ (Match.mk (0, 1) [(-1, -1)]).groups
    ∧ ((-1 : Int), make_color (some 1) none) ∈ get_match_indexes hlOptXA.patterns "abc".data
    ∧ ((-1 : Int), make_endc) ∈ get_match_indexes hlOptXA.patterns "abc".data := by
  have hp : (optXA, ((some 1, none) : Color)) ∈ hlOptXA.patterns :=
    List.mem_singleton_self _
  have hm : (Match.mk (0, 1) [(-1, -1)]) ∈ optXA "abc".data :=
    List.mem_singleton_self _
  have h := nonparticipating_group_events.1 hlOptXA.patterns "abc".data optXA
    (some 1, none) (Match.mk (0, 1) [(-1, -1)]) ((-1, -1)) hp hm (by decide) (by decide)
  exact ⟨hp, hm, by decide, by decide, h.1, h.2⟩

end Hl
